import Mathlib

/- Shallow embedding of the csv2json conversion pipeline (src/csv2json/csv2json.py)
   and proofs about the frozen claims C1..C10.

   Modelling conventions:
   * Python `str` is modelled as `List Char` (named `Str` below); helpers such as
     `pyStrip`, `pyLower`, `pyUpper` mirror the corresponding `str` methods on the
     ASCII range actually exercised by the program (whitespace, case mapping).
   * Python scalars produced by the pipeline form the tagged union `Value`
     (None / bool / int / float / str).  Python floats only ever hold values
     parsed from short decimal literals in this program, so the float payload is
     modelled exactly as a rational number.
   * Python dicts (rows, the id-keyed output map, the column-type map) are
     modelled as insertion-ordered association lists, with assignment replacing
     the first matching key in place (as a Python dict does).
   * Fallible Python operations (`float(s)` under try/except) are modelled with
     `Option`; an exception that the source swallows corresponds to `none`.
-/

set_option autoImplicit false

abbrev Str := List Char

/-- Whitespace characters recognised by Python `str.strip()` (ASCII range). -/
def pyWhitespace (c : Char) : Bool :=
  c = ' ' ∨ c = '\t' ∨ c = '\n' ∨ c = '\r' ∨ c = '\x0b' ∨ c = '\x0c'

/-- Python `str.strip()`: remove leading and trailing whitespace. -/
def pyStrip (s : Str) : Str :=
  ((s.dropWhile pyWhitespace).reverse.dropWhile pyWhitespace).reverse

/-- ASCII lower-casing of one character, as `str.lower()` does on ASCII input. -/
def lowerChar (c : Char) : Char :=
  if 'A' ≤ c ∧ c ≤ 'Z' then Char.ofNat (c.toNat + 32) else c

/-- ASCII upper-casing of one character, as `str.upper()` does on ASCII input. -/
def upperChar (c : Char) : Char :=
  if 'a' ≤ c ∧ c ≤ 'z' then Char.ofNat (c.toNat - 32) else c

/-- Python `str.lower()` (ASCII range). -/
def pyLower (s : Str) : Str := s.map lowerChar

/-- Python `str.upper()` (ASCII range). -/
def pyUpper (s : Str) : Str := s.map upperChar

def isDigitChar (c : Char) : Bool := '0' ≤ c ∧ c ≤ '9'

/-- Decimal digit run to a natural number. -/
def digitsToNat (s : Str) : ℕ :=
  s.foldl (fun a c => 10 * a + (c.toNat - 48)) 0

/-- Python `s.startswith(pre)`. -/
def strStartsWith (s pre : Str) : Bool := s.take pre.length = pre

/-- The typed scalar model: Python values flowing through the pipeline. -/
inductive Value where
  | null
  | bool (b : Bool)
  | int (n : ℤ)
  | float (q : ℚ)
  | str (s : Str)
  deriving DecidableEq

def isStrV : Value → Bool
  | .str _ => true
  | _ => false

/-- Truthy literals of `detect_type` / bool coercion: `('true','yes','y','1')`. -/
def trueLits : List Str := ["true".toList, "yes".toList, "y".toList, "1".toList]

/-- Falsy literals of `detect_type` / bool coercion: `('false','no','n','0')`. -/
def falseLits : List Str := ["false".toList, "no".toList, "n".toList, "0".toList]

/-- The regex `^-?\d+(\.\d+)?$` of `detect_type` (dot decimal separator). -/
def matchesDotNumber (s : Str) : Bool :=
  let t := match s with
    | '-' :: r => r
    | _ => s
  let ds := t.takeWhile isDigitChar
  let rest := t.dropWhile isDigitChar
  decide (ds ≠ []) && (match rest with
    | [] => true
    | '.' :: fs => decide (fs ≠ []) && fs.all isDigitChar
    | _ => false)

/-- The regex `^-?\d+(,\d+)?$` of `detect_type` (comma decimal separator). -/
def matchesCommaNumber (s : Str) : Bool :=
  let t := match s with
    | '-' :: r => r
    | _ => s
  let ds := t.takeWhile isDigitChar
  let rest := t.dropWhile isDigitChar
  decide (ds ≠ []) && (match rest with
    | [] => true
    | ',' :: fs => decide (fs ≠ []) && fs.all isDigitChar
    | _ => false)

/-- Kernel-evaluable rational multiplication (agrees with `Rat.mul`: both build
    the normalised fraction of the product). -/
def ratMul (a b : ℚ) : ℚ := mkRat (a.num * b.num) (a.den * b.den)

/-- Kernel-evaluable rational addition (agrees with `Rat.add`). -/
def ratAdd (a b : ℚ) : ℚ := mkRat (a.num * (b.den : ℤ) + b.num * (a.den : ℤ)) (a.den * b.den)

/-- Value of `digits [. digits]` as an exact rational (`float()` on a regex match). -/
def parseUnsignedDec (s : Str) : ℚ :=
  let ds := s.takeWhile isDigitChar
  let rest := s.dropWhile isDigitChar
  match rest with
  | '.' :: fs =>
    mkRat ((digitsToNat ds * 10 ^ fs.length + digitsToNat fs : ℕ) : ℤ) (10 ^ fs.length)
  | _ => mkRat ((digitsToNat ds : ℕ) : ℤ) 1

/-- Signed decimal value (`float()` on a `detect_type` regex match). -/
def parseDec (s : Str) : ℚ :=
  match s with
  | '-' :: r => - parseUnsignedDec r
  | _ => parseUnsignedDec s

/-- Signed integer value (`int()` on a digit-only regex match). -/
def parseIntStr (s : Str) : ℤ :=
  match s with
  | '-' :: r => -(digitsToNat r : ℤ)
  | _ => (digitsToNat s : ℤ)

/-- `detect_type` (csv2json.py lines 174-218): rule order is
    empty/whitespace → Null; boolean literal membership; dot-decimal numeric;
    comma-decimal numeric; fall back to the original string.
    (The `value is None` guard of the source is subsumed by modelling the input
    as an always-present string; callers in the source only pass strings.) -/
def detect_type (value : Str) : Value :=
  if pyStrip value = [] then .null
  else if pyLower value ∈ trueLits then .bool true
  else if pyLower value ∈ falseLits then .bool false
  else if matchesDotNumber value then
    (if value.contains '.' then .float (parseDec value) else .int (parseIntStr value))
  else if matchesCommaNumber value then
    (let nv := value.map (fun c => if c = ',' then '.' else c)
     if nv.contains '.' then .float (parseDec nv) else .int (parseIntStr nv))
  else .str value

/-- Python `s.split(c)` for a one-character separator (empty input gives `[""]`). -/
def splitOnChar (c : Char) : Str → List Str
  | [] => [[]]
  | x :: r =>
    if x = c then [] :: splitOnChar c r
    else match splitOnChar c r with
      | g :: gs => (x :: g) :: gs
      | [] => [[x]]

/-- Python `s.split(c, 1)`: split at the first occurrence only; `none` if absent. -/
def splitOnceChar (c : Char) : Str → Option (Str × Str)
  | [] => none
  | x :: r =>
    if x = c then some ([], r)
    else match splitOnceChar c r with
      | some (a, b) => some (x :: a, b)
      | none => none

/-- `line.strip().startswith('#')`: comment line per the source. -/
def isCommentLine (l : Str) : Bool := strStartsWith (pyStrip l) "#".toList

/-- detect_delimiter lines 27-34: split the sample on newlines, keep the lines
    whose strip is non-empty. -/
def sampleLines (sample : Str) : List Str :=
  (splitOnChar '\n' sample).filter (fun l => pyStrip l ≠ [])

/-- detect_delimiter lines 36-40: drop comment lines, falling back to the full
    non-empty line set when everything is a comment. -/
def sampleDataLines (sample : Str) : List Str :=
  let lines := sampleLines sample
  let dl := lines.filter (fun l => ¬ isCommentLine l)
  if dl = [] then lines else dl

/-- Candidate separators, in the iteration order of the source default `',;|\t'`.
    All call sites of `detect_delimiter` in the source use this default. -/
def defaultDelims : List Char := [',', ';', '|', '\t']

/-- Distinct values of a list in first-occurrence order (the insertion order of
    a Python `Counter`). -/
def firstDedup (l : List ℕ) : List ℕ :=
  l.foldl (fun acc x => if x ∈ acc then acc else acc ++ [x]) []

/-- First maximum of `f` over `l` (Python `max(l, key=f)` keeps the earliest
    maximal element). -/
def argmaxBy {α : Type} (f : α → ℕ) : List α → Option α
  | [] => none
  | x :: r => some (r.foldl (fun b y => if f b < f y then y else b) x)

/-- `Counter(counts).most_common(1)`: most frequent occurrence-count, ties broken
    by first insertion. -/
def mostCommon1 (counts : List ℕ) : Option ℕ :=
  argmaxBy (fun c => counts.count c) (firstDedup counts)

/-- detect_delimiter lines 44-66: score of one candidate over the first 10 data
    lines.  Lines with an odd number of `"` are skipped; base score is the sum
    of per-line occurrence counts; a consistency multiplier
    `(frequency_of_most_common_count / len(data_lines[:10])) * 2` applies when
    the most common count is non-zero. -/
def baseScore (d : Char) (d10 : List Str) : ℚ :=
  let good := d10.filter (fun l => l.count '"' % 2 = 0)
  let counts := good.map (fun l => l.count d)
  let base : ℚ := mkRat ((counts.sum : ℕ) : ℤ) 1
  match mostCommon1 counts with
  | none => base
  | some c =>
    if 0 < c then ratMul base (mkRat ((2 * counts.count c : ℕ) : ℤ) d10.length)
    else base

/-- Indices at which a line contains a tab (Python `enumerate` positions). -/
def tabPositions (l : Str) : List ℕ :=
  (l.enum.filter (fun p => p.2 = '\t')).map Prod.fst

/-- detect_delimiter lines 75-84: the tab-position consistency scan.  The
    reference position set is taken from the first line containing tabs and is
    never updated afterwards; each later tab-containing line adds the size of
    the intersection with that reference set. -/
def tabScanGo : List Str → List ℕ → ℕ → ℕ
  | [], _, acc => acc
  | l :: r, tp, acc =>
    let ps := tabPositions l
    if ps = [] then tabScanGo r tp acc
    else if tp = [] then tabScanGo r ps acc
    else tabScanGo r tp (acc + (tp.filter (fun i => i ∈ ps)).length)

def tabPatternScore (d10 : List Str) : ℕ := tabScanGo d10 [] 0

/-- detect_delimiter lines 43-96: the full score table (candidate order is the
    source's dict insertion order), including the tab-specific bonuses. -/
def scoresFor (sample : Str) : List (Char × ℚ) :=
  let d10 := (sampleDataLines sample).take 10
  let base := defaultDelims.map (fun d => (d, baseScore d d10))
  if '\t' ∈ sample then
    let tps := tabPatternScore d10
    let base1 :=
      if 0 < tps then
        base.map (fun p => if p.1 = '\t' then (p.1, ratAdd p.2 (mkRat ((2 * tps : ℕ) : ℤ) 1)) else p)
      else base
    let spaces := (d10.map (fun l => l.count ' ')).sum
    let tabs := (d10.map (fun l => l.count '\t')).sum
    if 0 < tabs ∧ (5 : ℚ) < mkRat ((spaces : ℕ) : ℤ) (max tabs 1) then
      base1.map (fun p => if p.1 = '\t' then (p.1, ratMul p.2 (mkRat 2 1)) else p)
    else base1
  else base

/-- Python `max(scores, key=scores.get)`: first key with the maximal score. -/
def argmaxScore : List (Char × ℚ) → Char
  | [] => ','
  | p :: r => (r.foldl (fun b y => if b.2 < y.2 then y else b) p).1

/-- `detect_delimiter` (csv2json.py lines 12-103).  The early returns of the
    source (empty sample, no non-empty lines, all scores zero) appear in the
    same order; `lines = sample_data.split('\n'); if not lines` is unreachable
    in Python (`split` never returns an empty list) and is not modelled. -/
def detect_delimiter (sample : Str) : Char :=
  if sample = [] then ','
  else if sampleLines sample = [] then ','
  else if (scoresFor sample).all (fun p => p.2 == 0) then ','
  else argmaxScore (scoresFor sample)

abbrev Row := List (Str × Value)

/-- First-match association lookup: Python `row[key]` / `key in row` on a dict
    modelled as an insertion-ordered association list. -/
def alookup {β : Type} (k : Str) : List (Str × β) → Option β
  | [] => none
  | (k0, v) :: r => if k0 = k then some v else alookup k r

/-- Python dict assignment `d[k] = v`: replace the first matching key in place,
    otherwise append. -/
def pyInsertStr {β : Type} (d : List (Str × β)) (k : Str) (v : β) : List (Str × β) :=
  match d with
  | [] => [(k, v)]
  | (k0, w) :: rest => if k0 = k then (k0, v) :: rest else (k0, w) :: pyInsertStr rest k v

/-- Python `d.update(e)` / sequential assignments. -/
def pyUpdate {β : Type} (d : List (Str × β)) (e : List (Str × β)) : List (Str × β) :=
  e.foldl (fun acc p => pyInsertStr acc p.1 p.2) d

/-- Type tags counted by `infer_column_types` (its `type_counts` keys). -/
inductive Tag where
  | null
  | bool
  | int
  | float
  | str
  deriving DecidableEq

def tagOf : Value → Tag
  | .null => .null
  | .bool _ => .bool
  | .int _ => .int
  | .float _ => .float
  | .str _ => .str

/-- Column type names used by `infer_column_types` / `parse_transforms` /
    `convert_data_types` ('int', 'float', 'bool', 'string'). -/
inductive TName where
  | int
  | float
  | bool
  | string
  deriving DecidableEq

/-- Number of rows whose value under `k` carries tag `tg`
    (`type_counts[key][tag]` of infer_column_types; rows without the key are
    skipped, via the `if key not in row: continue` guard). -/
def tallyAt (rows : List Row) (k : Str) (tg : Tag) : ℕ :=
  rows.countP (fun r => match alookup k r with
    | some v => tagOf v == tg
    | none => false)

/-- infer_column_types lines 266-285, for one column, phrased on the four
    non-null counts (the null count is popped before the maximum is taken).
    `max(counts.items(), key=...)` iterates the counts dict in insertion order
    int, float, bool, string and keeps the first maximal entry, which the
    nested conditionals reproduce.  The promotion special case follows. -/
def inferOfCounts (cI cF cB cS : ℕ) : TName :=
  if cI + cF + cB + cS = 0 then .string
  else
    let mc :=
      if cF ≤ cI ∧ cB ≤ cI ∧ cS ≤ cI then TName.int
      else if cB ≤ cF ∧ cS ≤ cF then TName.float
      else if cS ≤ cB then TName.bool
      else TName.string
    if (mc = TName.int ∨ mc = TName.float) ∧ cI + cF = cI + cF + cB + cS ∧ 0 < cF then
      TName.float
    else mc

def inferFor (rows : List Row) (k : Str) : TName :=
  inferOfCounts (tallyAt rows k .int) (tallyAt rows k .float)
    (tallyAt rows k .bool) (tallyAt rows k .str)

/-- `infer_column_types(rows)` with `keys=None` (the only call in the source):
    the key list is the first row's keys; each key maps to its inferred type. -/
def infer_column_types (rows : List Row) : List (Str × TName) :=
  match rows with
  | [] => []
  | r0 :: _ => (r0.map Prod.fst).map (fun k => (k, inferFor rows k))

/-- Transform operations as the source stores them: a (lower-cased) name plus
    optional replace parameters, mirroring the `(name, params)` tuples. -/
abbrev TransformOp := Str × Option (Str × Str)

structure TransformSpec where
  type : TName
  transformations : List TransformOp
  deriving DecidableEq

/-- The `type_map` synonym table of parse_transforms (lines 325-336). -/
def typeSynonyms : List (Str × TName) :=
  [("string".toList, .string), ("str".toList, .string), ("text".toList, .string),
   ("number".toList, .float), ("num".toList, .float), ("float".toList, .float),
   ("integer".toList, .int), ("int".toList, .int),
   ("boolean".toList, .bool), ("bool".toList, .bool)]

/-- `parse_transforms` (csv2json.py lines 290-362). -/
def parse_transforms (transform_arg : Str) : List (Str × TransformSpec) :=
  if transform_arg = [] then []
  else
    (splitOnChar ',' transform_arg).foldl (fun acc item =>
      match splitOnceChar ':' item with
      | none => acc
      | some (column0, specs) =>
        let column := pyStrip column0
        if column = [] then acc
        else
          let parts := splitOnChar '/' specs
          let tname := (alookup (pyLower (pyStrip (parts.headD []))) typeSynonyms).getD .string
          let transformations := parts.tail.foldl (fun ts t =>
            if pyStrip t = [] then ts
            else if strStartsWith t "replace:".toList then
              match splitOnceChar ':' t with
              | some (_, rspec) =>
                match splitOnceChar '=' rspec with
                | some (o, n) => ts ++ [(("replace".toList : Str), some (o, n))]
                | none => ts
              | none => ts
            else ts ++ [((pyLower (pyStrip t) : Str), (none : Option (Str × Str)))]) []
          pyInsertStr acc column ⟨tname, transformations⟩) []

/-- Python `str.capitalize()`: first character upper-cased, the rest lower-cased. -/
def pyCapitalize : Str → Str
  | [] => []
  | c :: r => upperChar c :: r.map lowerChar

def isAlphaChar (c : Char) : Bool := ('a' ≤ c ∧ c ≤ 'z') ∨ ('A' ≤ c ∧ c ≤ 'Z')

/-- Python `str.title()` on the ASCII range: a letter following a letter is
    lower-cased, a letter starting a word is upper-cased. -/
def pyTitleGo : Bool → Str → Str
  | _, [] => []
  | prev, c :: r =>
    (if isAlphaChar c then (if prev then lowerChar c else upperChar c) else c) ::
      pyTitleGo (isAlphaChar c) r

def pyTitle (s : Str) : Str := pyTitleGo false s

/-- Python `str.replace(old, new)` for non-empty `old`. -/
def pyReplaceNE (o0 : Char) (orest n : Str) : Str → Str
  | [] => []
  | c :: r =>
    if strStartsWith (c :: r) (o0 :: orest) then n ++ pyReplaceNE o0 orest n (r.drop orest.length)
    else c :: pyReplaceNE o0 orest n r
termination_by s => s.length
decreasing_by
  · simp only [List.length_drop, List.length_cons]
    omega
  · simp only [List.length_cons]
    omega

/-- Python `str.replace(old, new)` (empty `old` interleaves `new` between all
    characters, as CPython does). -/
def pyReplace (s o n : Str) : Str :=
  match o with
  | [] => n ++ (s.map (fun c => c :: n)).flatten
  | o0 :: orest => pyReplaceNE o0 orest n s

/-- One step of the transform loop of `apply_transformations` (lines 382-400):
    each operation applies only when the current value is a string, otherwise
    the value passes through; unknown names are no-ops. -/
def applyOneTransform (result : Value) (t : TransformOp) : Value :=
  match result with
  | .str s =>
    if t.1 = "upper".toList then .str (pyUpper s)
    else if t.1 = "lower".toList then .str (pyLower s)
    else if t.1 = "trim".toList then .str (pyStrip s)
    else if t.1 = "capitalize".toList then .str (pyCapitalize s)
    else if t.1 = "title".toList then .str (pyTitle s)
    else if t.1 = "replace".toList then
      match t.2 with
      | some (o, n) => .str (pyReplace s o n)
      | none => result
    else result
  | _ => result

/-- `apply_transformations` (csv2json.py lines 365-406): None passes through;
    otherwise the operations fold over the value left to right in declaration
    order.  (The diagnostic echo of the source has no effect on the value.) -/
def apply_transformations (value : Value) (transformations : List TransformOp) : Value :=
  if value = .null then .null
  else transformations.foldl applyOneTransform value

/-- Python `float(s)` on a stripped string: optional sign, `digits [. digits]`
    or `. digits` or `digits .`, optional exponent.  Exotic accepted forms
    (`inf`, `nan`, underscore separators, hex floats) never arise from this
    program's data and are not modelled. -/
def pyFloatOfStr (s : Str) : Option ℚ :=
  let t := pyStrip s
  let sp : Bool × Str := match t with
    | '+' :: r => (false, r)
    | '-' :: r => (true, r)
    | _ => (false, t)
  let neg := sp.1
  let t1 := sp.2
  let ip := t1.takeWhile isDigitChar
  let r1 := t1.dropWhile isDigitChar
  let fpr : Str × Str := match r1 with
    | '.' :: r => (r.takeWhile isDigitChar, r.dropWhile isDigitChar)
    | _ => ([], r1)
  let fp := fpr.1
  let r2 := fpr.2
  if ip = [] ∧ fp = [] then none
  else
    let msign : ℤ := if neg then -1 else 1
    let m : ℤ := msign * ((digitsToNat ip * 10 ^ fp.length + digitsToNat fp : ℕ) : ℤ)
    let fl := fp.length
    match r2 with
    | [] => some (mkRat m (10 ^ fl))
    | e :: r3 =>
      if e = 'e' ∨ e = 'E' then
        let esp : Bool × Str := match r3 with
          | '+' :: r => (false, r)
          | '-' :: r => (true, r)
          | _ => (false, r3)
        let eds := esp.2.takeWhile isDigitChar
        if eds ≠ [] ∧ esp.2.dropWhile isDigitChar = [] then
          let ev := digitsToNat eds
          if esp.1 then some (mkRat m (10 ^ fl * 10 ^ ev))
          else some (mkRat (m * ((10 ^ ev : ℕ) : ℤ)) (10 ^ fl))
        else none
      else none

/-- Python `int(float)` for an integral float: since `q.den = 1` is required at
    every use, this is exact truncation `q.num`. -/
def intOfIntegralRat (q : ℚ) : ℤ := q.num

/-- Type coercion of `convert_data_types` (lines 476-491), for one value under
    one column type.  Notes on fidelity:
    * `'int'` branch: guarded by `not isinstance(value, int)`, and Python bools
      are `int` instances, so bools pass through untouched;
      `int(float(value)) if isinstance(value,(str,float)) and float(value).is_integer()
      else float(value)` under `try/except` — a failing `float()` leaves the
      value unchanged.
    * `'float'` branch: `float(value)` on non-floats; `float(True) = 1.0`,
      `float(False) = 0.0`; a failing `float(str)` leaves the value unchanged;
      `float(None)` raises and is swallowed (None is already skipped upstream).
    * `'bool'` branch: only strings in the boolean literal sets convert.
    * `'string'` has no branch in the source: values pass through. -/
def coerce (t : TName) (value : Value) : Value :=
  match t with
  | .int =>
    match value with
    | .int _ => value
    | .bool _ => value
    | .null => value
    | .float q => if q.den = 1 then .int (intOfIntegralRat q) else value
    | .str s =>
      match pyFloatOfStr s with
      | some q => if q.den = 1 then .int (intOfIntegralRat q) else .float q
      | none => value
  | .float =>
    match value with
    | .float _ => value
    | .null => value
    | .int n => .float (mkRat n 1)
    | .bool b => .float (if b then mkRat 1 1 else mkRat 0 1)
    | .str s =>
      match pyFloatOfStr s with
      | some q => .float q
      | none => value
  | .bool =>
    match value with
    | .bool _ => value
    | .str s =>
      if pyLower s ∈ trueLits then .bool true
      else if pyLower s ∈ falseLits then .bool false
      else value
    | _ => value
  | .string => value

/-- The first (detection) pass of `convert_data_types` (lines 427-438), on one
    field: strings are re-typed with `detect_type` unless the column has a
    TransformSpec.  (`has_transforms and key in transforms` collapses to the
    lookup being successful: an empty transform dict is falsy and has no keys.) -/
def detectEntry (transforms : List (Str × TransformSpec)) (p : Str × Value) : Str × Value :=
  match p.2 with
  | .str s => if (alookup p.1 transforms).isSome then p else (p.1, detect_type s)
  | _ => p

/-- The second (transform + coercion) pass of `convert_data_types`
    (lines 456-491) on one field: None is skipped; a column's transforms apply
    first; then the column type, when present, coerces the transformed value. -/
def convStep (transforms : List (Str × TransformSpec)) (ctypes : List (Str × TName))
    (k : Str) (v : Value) : Value :=
  if v = .null then v
  else
    let v1 := match alookup k transforms with
      | some spec => apply_transformations v spec.transformations
      | none => v
    match alookup k ctypes with
    | some t => coerce t v1
    | none => v1

/-- `convert_data_types` (csv2json.py lines 409-493).  The in-place dict
    mutation of the source becomes a functional two-pass map; the column-type
    dict is built as hints then transform overrides, falling back to
    `infer_column_types` when both are absent. -/
def convert_data_types (rows : List Row) (type_hints : List (Str × TName))
    (transforms : List (Str × TransformSpec)) : List Row :=
  if rows = [] then rows
  else
    let rows1 :=
      if type_hints = [] then rows.map (fun r => r.map (detectEntry transforms)) else rows
    let ctypes0 := pyUpdate type_hints (transforms.map (fun p => (p.1, p.2.type)))
    let ctypes := if ctypes0 = [] then infer_column_types rows1 else ctypes0
    rows1.map (fun r => r.map (fun p => (p.1, convStep transforms ctypes p.1 p.2)))

/-- Python dict-key equivalence classes for the values this program can key a
    dict by: `None` is its own key; bools and numbers compare numerically
    (`True == 1 == 1.0` share one dict slot); strings compare as strings. -/
inductive PyKey where
  | noneKey
  | num (q : ℚ)
  | strKey (s : Str)
  deriving DecidableEq

def pyKeyOf : Value → PyKey
  | .null => .noneKey
  | .bool b => .num (if b then mkRat 1 1 else mkRat 0 1)
  | .int n => .num (mkRat n 1)
  | .float q => .num q
  | .str s => .strKey s

/-- Python `d[k] = item` on the id-keyed output dict: replace the value of the
    first equivalent key in place (the stored key object is kept), else append. -/
def pyDictInsert (d : List (Value × Row)) (k : Value) (it : Row) : List (Value × Row) :=
  match d with
  | [] => [(k, it)]
  | (k0, w) :: rest =>
    if pyKeyOf k0 = pyKeyOf k then (k0, it) :: rest
    else (k0, w) :: pyDictInsert rest k it

/-- Lookup in the id-keyed output dict. -/
def pyDictLookup (k : Value) : List (Value × Row) → Option Row
  | [] => none
  | (k0, w) :: rest => if pyKeyOf k0 = pyKeyOf k then some w else pyDictLookup k rest

/-- save_json lines 788-791: `for item in data: if id_field in item:
    data_dict[item[id_field]] = item`. -/
def buildIdMap (idField : Str) (data : List Row) : List (Value × Row) :=
  data.foldl (fun acc item =>
    match alookup idField item with
    | some v => pyDictInsert acc v item
    | none => acc) []

/-- The emitted document shape: a record sequence or an id-keyed mapping. -/
inductive JsonDoc where
  | seq (records : List Row)
  | keymap (entries : List (Value × Row))
  deriving DecidableEq

/-- The re-keying step of `save_json` (csv2json.py lines 785-794), i.e. the
    data transformation performed before serialisation.  The guard
    `if id_field and isinstance(data, list) and data and isinstance(data[0], dict)`
    becomes: an id-field is present and non-empty (an empty string is falsy)
    and the record list is non-empty (records of keyed mode are always dicts).
    If no record carried the field the original sequence is kept. -/
def rekey_for_save (idField : Option Str) (data : List Row) : JsonDoc :=
  match idField with
  | none => .seq data
  | some f =>
    if f = [] ∨ data = [] then .seq data
    else
      let d := buildIdMap f data
      if d = [] then .seq data else .keymap d

/-- The record that re-keying keeps for key `k`: the last record whose id-field
    value is dict-equal to `k`.  (Stated from the claim's wording, to be related
    to `buildIdMap`.) -/
def lastMatching (f : Str) (k : Value) (recs : List Row) : Option Row :=
  (recs.filter (fun r => match alookup f r with
    | some v => pyKeyOf v == pyKeyOf k
    | none => false)).getLast?

/-- load_csv lines 534-543 (and the identical re-skip in the except handler,
    lines 612-619): consume lines until the configured number of NON-comment
    lines has been consumed; comment lines are consumed without counting;
    stop early at end of input. -/
def skipRows : ℕ → List Str → List Str
  | 0, ls => ls
  | _ + 1, [] => []
  | n + 1, l :: ls => if isCommentLine l then skipRows (n + 1) ls else skipRows n ls

/-- fallback_csv_parse lines 694-696: `if skip_first_row > 0 and
    len(lines) > skip_first_row: lines = lines[skip_first_row:]` — a second,
    comment-blind skip applied to the lines the function receives. -/
def fallbackSliceSkip (skip : ℕ) (ls : List Str) : List Str :=
  if 0 < skip ∧ skip < ls.length then ls.drop skip else ls

/-- The lines the fallback parser actually starts from for a document and skip
    count: load_csv's except handler rewinds to the file start and re-runs the
    comment-aware skip (lines 610-619), then `fallback_csv_parse` applies its
    own slice (lines 694-696). -/
def fallbackStartLines (doc : List Str) (skip : ℕ) : List Str :=
  fallbackSliceSkip skip (skipRows skip doc)

/-- Python `s.strip(c)`: remove all leading and trailing occurrences of `c`. -/
def pyStripChar (s : Str) (c : Char) : Str :=
  ((s.dropWhile (· = c)).reverse.dropWhile (· = c)).reverse

/-- fallback_csv_parse lines 698-699: drop blank and comment lines. -/
def dropCommentBlank (ls : List Str) : List Str :=
  ls.filter (fun l => pyStrip l ≠ [] ∧ ¬ isCommentLine l)

/-- The per-character field scanner of fallback_csv_parse's positional branch
    (lines 709-722): toggle the quote state on the quote character, split on
    the delimiter outside quotes, strip quote characters off each finished
    field; the trailing field is appended only when non-empty. -/
def scanGo (delim quote : Char) : Str → Bool → Str → List Str → List Str
  | [], _, cur, acc => if cur ≠ [] then acc ++ [pyStripChar cur quote] else acc
  | c :: r, inq, cur, acc =>
    if c = quote then scanGo delim quote r (!inq) cur acc
    else if c = delim ∧ ¬ inq then scanGo delim quote r inq [] (acc ++ [pyStripChar cur quote])
    else scanGo delim quote r inq (cur ++ [c]) acc

/-- Python truthiness of a scalar value. -/
def pyTruthy : Value → Bool
  | .null => false
  | .bool b => b
  | .int n => n ≠ 0
  | .float q => q ≠ 0
  | .str s => s ≠ []

/-- `current_row[key] += " " + line`.  At this point of the fallback parser the
    value is always a string (a non-string would raise in Python, but the
    truthiness guard only ever selects non-empty strings here). -/
def valAppend (v : Value) (line : Str) : Value :=
  match v with
  | .str s => .str (s ++ ' ' :: line)
  | _ => v

/-- fallback_csv_parse lines 752-756: append a continuation line to the first
    field of the current row holding a truthy value; if none does, the line is
    dropped. -/
def appendContinuation : Row → Str → Row
  | [], _ => []
  | (k, v) :: rest, line =>
    if pyTruthy v then (k, valAppend v line) :: rest
    else (k, v) :: appendContinuation rest line

/-- fallback_csv_parse lines 763-772: build a row from a naive split, pairing
    fields with headers positionally (extra fields are dropped), stripping
    quote characters and mapping empty fields to None. -/
def buildRowFB (headers fields : List Str) (quote : Char) : Row :=
  (headers.zip fields).foldl (fun acc p =>
    let fv := pyStripChar p.2 quote
    pyInsertStr acc p.1 (if fv = [] then Value.null else .str fv)) []

/-- The record loop of fallback_csv_parse (lines 741-776).  A line that starts
    with the delimiter, or with any character other than the quote character or
    the delimiter, is treated as a continuation of the current row; only lines
    starting with the quote character open a new row. -/
def fbGo (delim quote : Char) (headers : List Str) : List Str → Row → List Row → List Row
  | [], cur, res => if cur ≠ [] then res ++ [cur] else res
  | line0 :: rest, cur, res =>
    let line := pyStrip line0
    if line = [] then fbGo delim quote headers rest cur res
    else if strStartsWith line [delim] ∨
        (line ≠ [] ∧ line.head? ≠ some quote ∧ line.head? ≠ some delim) then
      fbGo delim quote headers rest (appendContinuation cur line) res
    else
      let res1 := if cur ≠ [] then res ++ [cur] else res
      fbGo delim quote headers rest (buildRowFB headers (splitOnChar delim line) quote) res1

/-- Result shape of the record parsers: positional rows (missing header) or
    keyed records. -/
inductive ParseOut where
  | arrays (rows : List (List Value))
  | records (rows : List Row)
  deriving DecidableEq

/-- `fallback_csv_parse` (csv2json.py lines 684-782) for a non-tab delimiter.
    (For a tab delimiter the source delegates to `parse_tab_delimited_file`,
    a separate code path no claim exercises; it is not modelled.)  Receives the
    lines remaining after load_csv's except-handler re-skip, applies its own
    slice skip, filters comments/blanks, then parses per branch. -/
def fallback_csv_parse (lines0 : List Str) (delim quote : Char)
    (customHeaders : Option (List Str)) (missingHeader detectTypes : Bool)
    (skip : ℕ) (transforms : List (Str × TransformSpec)) : ParseOut :=
  let lines := dropCommentBlank (fallbackSliceSkip skip lines0)
  if missingHeader ∧ customHeaders = none ∧ lines ≠ [] then
    .arrays (lines.map (fun line0 =>
      let fields := scanGo delim quote (pyStrip line0) false [] []
      if detectTypes then fields.map (fun f => detect_type f) else fields.map .str))
  else
    match (match customHeaders with
      | some hs => some (hs, lines)
      | none =>
        if lines ≠ [] ∧ ¬ missingHeader then
          some (splitOnChar delim (pyStrip (lines.headD [])), lines.tail)
        else none) with
    | none => .records []
    | some (headers, body) =>
      let res := fbGo delim quote headers body [] []
      .records (if detectTypes ∧ res ≠ [] then convert_data_types res [] transforms else res)

/-- The except handler of `load_csv` (csv2json.py lines 607-622): any exception
    from the strict parsing stage is caught, the input is rewound to the start,
    the comment-aware skip is re-run, and the fallback parser's result is
    returned.  The strict stage itself is Python's `csv` module (external
    library code); its outcome is therefore abstracted as an `Except` value,
    while the repository's recovery wiring is modelled exactly. -/
def load_csv_result (primary : Except Unit ParseOut) (doc : List Str)
    (delim quote : Char) (customHeaders : Option (List Str))
    (missingHeader detectTypes : Bool) (skip : ℕ)
    (transforms : List (Str × TransformSpec)) : ParseOut :=
  match primary with
  | .ok out => out
  | .error _ =>
    fallback_csv_parse (skipRows skip doc) delim quote customHeaders
      missingHeader detectTypes skip transforms

/-- One conversion-pass stage: every field coerced by its column's type, the
    functional formulation of the second pass with no transforms. -/
def coerceRowT (T : List (Str × TName)) (r : Row) : Row :=
  r.map (fun p => (p.1, match alookup p.1 T with
    | some t => coerce t p.2
    | none => p.2))

/-- No string values anywhere in the record set (decidable form used as the
    hypothesis of the amended idempotence claim). -/
def NoStrValues (rows : List Row) : Bool :=
  rows.all (fun r => r.all (fun p => !isStrV p.2))

def isIntegralFloat : Value → Bool
  | .float q => q.den = 1
  | _ => false

/-- Every transform step maps a non-null value to a non-null value (string
    operations return strings; everything else passes through). -/
theorem applyOneTransform_shape (v : Value) (t : TransformOp) :
    applyOneTransform v t = v ∨ ∃ s : Str, applyOneTransform v t = .str s := by
  cases v with
  | str s =>
    obtain ⟨name, params⟩ := t
    simp only [applyOneTransform]
    split_ifs with h1 h2 h3 h4 h5 h6
    · exact Or.inr ⟨_, rfl⟩
    · exact Or.inr ⟨_, rfl⟩
    · exact Or.inr ⟨_, rfl⟩
    · exact Or.inr ⟨_, rfl⟩
    · exact Or.inr ⟨_, rfl⟩
    · rcases params with _ | ⟨o, n⟩
      · exact Or.inl rfl
      · exact Or.inr ⟨_, rfl⟩
    · exact Or.inl rfl
  | null => exact Or.inl rfl
  | bool b => exact Or.inl rfl
  | int n => exact Or.inl rfl
  | float q => exact Or.inl rfl

theorem applyOneTransform_ne_null (v : Value) (t : TransformOp) (hv : v ≠ .null) :
    applyOneTransform v t ≠ .null := by
  rcases applyOneTransform_shape v t with h | ⟨s, h⟩ <;> rw [h]
  · exact hv
  · intro hc
    exact Value.noConfusion hc

theorem foldl_applyOneTransform_ne_null (ts : List TransformOp) (v : Value) (hv : v ≠ .null) :
    ts.foldl applyOneTransform v ≠ .null := by
  induction ts generalizing v with
  | nil => exact hv
  | cons t ts ih =>
    rw [List.foldl_cons]
    exact ih _ (applyOneTransform_ne_null v t hv)

/-- C2: the type detector applies its rules in the fixed order null-check,
    boolean membership, dot-decimal numeric, comma-decimal numeric, string
    fallback.  The two universal conjuncts pin the first two rules' priority
    over everything after them (in particular "1" is Bool, never Int); the
    concrete conjuncts are the round-trip examples of the claim. -/
theorem c2_detect_type_order :
    (∀ s : Str, pyStrip s = [] → detect_type s = .null) ∧
    (∀ s : Str, pyStrip s ≠ [] → pyLower s ∈ trueLits → detect_type s = .bool true) ∧
    detect_type "42".toList = .int 42 ∧
    detect_type "3.14".toList = .float (mkRat 157 50) ∧
    detect_type "3,14".toList = .float (mkRat 157 50) ∧
    detect_type "true".toList = .bool true ∧
    detect_type "Y".toList = .bool true ∧
    detect_type "1".toList = .bool true ∧
    detect_type "".toList = .null ∧
    detect_type "hello".toList = .str "hello".toList := by
  refine ⟨?_, ?_, by decide, by decide, by decide, by decide, by decide, by decide,
    by decide, by decide⟩
  · intro s h
    simp [detect_type, h]
  · intro s h1 h2
    simp [detect_type, h1, h2]

/-- C2 witness: the first rule applied at a whitespace-only input. -/
theorem c2_detect_type_order_witness :
    pyStrip "  ".toList = [] ∧ detect_type "  ".toList = .null :=
  ⟨by decide, c2_detect_type_order.1 "  ".toList (by decide)⟩

/-- C8: the delimiter detector returns comma for `"a,b,c\n1,2,3\n4,5,6"`,
    semicolon for `"a;b\n1;2"`, comma for the empty sample, and comma whenever
    every candidate's final score is zero. -/
theorem c8_delimiter :
    detect_delimiter "a,b,c\n1,2,3\n4,5,6".toList = ',' ∧
    detect_delimiter "a;b\n1;2".toList = ';' ∧
    detect_delimiter "".toList = ',' ∧
    ∀ s : Str, (scoresFor s).all (fun p => p.2 == 0) = true → detect_delimiter s = ',' := by
  refine ⟨by decide, by decide, by decide, ?_⟩
  intro s h
  unfold detect_delimiter
  split_ifs <;> rfl

/-- C8 witness: a sample with no candidate occurrences scores zero everywhere
    and yields comma. -/
theorem c8_delimiter_witness :
    (scoresFor "ab".toList).all (fun p => p.2 == 0) = true ∧
    detect_delimiter "ab".toList = ',' :=
  ⟨by decide, c8_delimiter.2.2.2 "ab".toList (by decide)⟩

/-- C9: the transform engine returns Null unchanged, and every operation
    (including each string-only operation upper/lower/trim/capitalize/title/
    replace) leaves any non-string value unchanged — totally, hence without
    raising. -/
theorem c9_transform_noop :
    (∀ ts : List TransformOp, apply_transformations .null ts = .null) ∧
    (∀ (v : Value) (t : TransformOp), isStrV v = false → applyOneTransform v t = v) ∧
    (∀ (v : Value) (ts : List TransformOp), isStrV v = false →
      apply_transformations v ts = v) := by
  have hone : ∀ (v : Value) (t : TransformOp), isStrV v = false → applyOneTransform v t = v := by
    intro v t hv
    cases v with
    | str s => simp [isStrV] at hv
    | null => rfl
    | bool b => rfl
    | int n => rfl
    | float q => rfl
  have hfold : ∀ (ts : List TransformOp) (v : Value), isStrV v = false →
      ts.foldl applyOneTransform v = v := by
    intro ts
    induction ts with
    | nil => intro v _; rfl
    | cons t ts ih =>
      intro v hv
      rw [List.foldl_cons, hone v t hv]
      exact ih v hv
  refine ⟨?_, hone, ?_⟩
  · intro ts
    simp [apply_transformations]
  · intro v ts hv
    by_cases hn : v = .null
    · subst hn
      simp [apply_transformations]
    · simp only [apply_transformations, if_neg hn]
      exact hfold ts v hv

/-- C9 witness: an upper transform applied to an integer value. -/
theorem c9_transform_noop_witness :
    isStrV (.int 5) = false ∧
    apply_transformations (.int 5) [("upper".toList, none)] = .int 5 :=
  ⟨by decide, c9_transform_noop.2.2 (.int 5) [("upper".toList, none)] (by decide)⟩

/-- C4: transforms execute strictly in declaration order (splitting the list
    anywhere commutes with sequential application), the directive
    `name:string/trim/upper` on the raw value `"  bob "` produces `"BOB"`
    through the conversion pass, and for any column with a TransformSpec the
    converted value is the column-type coercion of the fully transformed value
    (coercion strictly after all transforms). -/
theorem c4_transform_order :
    (∀ (v : Value) (ts us : List TransformOp),
      apply_transformations v (ts ++ us) =
        apply_transformations (apply_transformations v ts) us) ∧
    parse_transforms "name:string/trim/upper".toList =
      [("name".toList, ⟨.string, [("trim".toList, none), ("upper".toList, none)]⟩)] ∧
    convert_data_types [[("name".toList, .str "  bob ".toList)]] []
        (parse_transforms "name:string/trim/upper".toList) =
      [[("name".toList, .str "BOB".toList)]] ∧
    (∀ (transforms : List (Str × TransformSpec)) (ctypes : List (Str × TName))
      (k : Str) (v : Value) (spec : TransformSpec) (t : TName),
      v ≠ .null → alookup k transforms = some spec → alookup k ctypes = some t →
      convStep transforms ctypes k v =
        coerce t (apply_transformations v spec.transformations)) := by
  refine ⟨?_, by decide, by decide, ?_⟩
  · intro v ts us
    by_cases hv : v = .null
    · subst hv
      simp [apply_transformations]
    · have h2 : ts.foldl applyOneTransform v ≠ .null :=
        foldl_applyOneTransform_ne_null ts v hv
      simp [apply_transformations, hv, h2, List.foldl_append]
  · intro transforms ctypes k v spec t hv htr hct
    simp [convStep, hv, htr, hct]

/-- C4 witness: the fourth conjunct instantiated at the `name:string/trim/upper`
    directive and the raw value `"  bob "`. -/
theorem c4_transform_order_witness :
    ((Value.str "  bob ".toList) ≠ .null ∧
     alookup "name".toList (parse_transforms "name:string/trim/upper".toList) =
       some ⟨.string, [("trim".toList, none), ("upper".toList, none)]⟩ ∧
     alookup "name".toList [("name".toList, TName.string)] = some TName.string) ∧
    convStep (parse_transforms "name:string/trim/upper".toList)
        [("name".toList, TName.string)] "name".toList (.str "  bob ".toList) =
      coerce TName.string (apply_transformations (.str "  bob ".toList)
        [("trim".toList, none), ("upper".toList, none)]) :=
  ⟨⟨by decide, by decide, by decide⟩,
    c4_transform_order.2.2.2 _ _ _ _ ⟨.string, [("trim".toList, none), ("upper".toList, none)]⟩ _
      (by decide) (by decide) (by decide)⟩

theorem pyDictLookup_insert (d : List (Value × Row)) (k v : Value) (it : Row) :
    pyDictLookup k (pyDictInsert d v it) =
      if pyKeyOf v = pyKeyOf k then some it else pyDictLookup k d := by
  induction d with
  | nil => simp [pyDictInsert, pyDictLookup]
  | cons p rest ih =>
    obtain ⟨k0, w⟩ := p
    simp only [pyDictInsert]
    by_cases h1 : pyKeyOf k0 = pyKeyOf v
    · rw [if_pos h1]
      simp only [pyDictLookup]
      by_cases h2 : pyKeyOf k0 = pyKeyOf k
      · rw [if_pos h2, if_pos (h1.symm.trans h2)]
      · rw [if_neg h2, if_neg (fun hvk => h2 (h1.trans hvk))]
        simp only [pyDictLookup, if_neg h2]
    · rw [if_neg h1]
      simp only [pyDictLookup]
      by_cases h2 : pyKeyOf k0 = pyKeyOf k
      · rw [if_pos h2, if_neg (fun hvk => h1 (h2.trans hvk.symm)), if_pos h2]
      · rw [if_neg h2, ih]
        by_cases h3 : pyKeyOf v = pyKeyOf k
        · rw [if_pos h3, if_pos h3]
        · rw [if_neg h3, if_neg h3]
          simp only [pyDictLookup, if_neg h2]

theorem lastOfCons {α : Type} (a : α) (l : List α) :
    (a :: l).getLast? =
      match l.getLast? with
      | some x => some x
      | none => some a := by
  cases hl : l.getLast? with
  | none =>
    rw [List.getLast?_eq_none_iff] at hl
    subst hl
    rfl
  | some x =>
    rcases List.getLast?_eq_some_iff.mp hl with ⟨l2, rfl⟩
    show ((a :: l2) ++ [x]).getLast? = some x
    rw [List.getLast?_concat]

theorem lastMatching_cons (f : Str) (k : Value) (r : Row) (rest : List Row) :
    lastMatching f k (r :: rest) =
      match lastMatching f k rest with
      | some x => some x
      | none =>
        if (match alookup f r with
            | some v => pyKeyOf v == pyKeyOf k
            | none => false) = true then some r else none := by
  simp only [lastMatching, List.filter_cons]
  by_cases hp : (match alookup f r with
      | some v => pyKeyOf v == pyKeyOf k
      | none => false) = true
  · rw [if_pos hp, lastOfCons, if_pos hp]
    cases (rest.filter (fun r => match alookup f r with
        | some v => pyKeyOf v == pyKeyOf k
        | none => false)).getLast? with
    | none => rfl
    | some x => rfl
  · rw [if_neg hp, if_neg hp]
    cases (rest.filter (fun r => match alookup f r with
        | some v => pyKeyOf v == pyKeyOf k
        | none => false)).getLast? with
    | none => rfl
    | some x => rfl

theorem buildIdMap_go (f : Str) (k : Value) (recs : List Row) :
    ∀ acc : List (Value × Row),
      pyDictLookup k (recs.foldl (fun acc item =>
        match alookup f item with
        | some v => pyDictInsert acc v item
        | none => acc) acc) =
      match lastMatching f k recs with
      | some x => some x
      | none => pyDictLookup k acc := by
  induction recs with
  | nil =>
    intro acc
    rfl
  | cons r rest ih =>
    intro acc
    rw [List.foldl_cons, ih, lastMatching_cons]
    cases hlm : lastMatching f k rest with
    | some x => rfl
    | none =>
      by_cases hpred : (match alookup f r with
          | some v => pyKeyOf v == pyKeyOf k
          | none => false) = true
      · rw [if_pos hpred]
        cases halo : alookup f r with
        | some v =>
          rw [halo] at hpred
          have hk : pyKeyOf v = pyKeyOf k := by
            simpa using hpred
          show pyDictLookup k (pyDictInsert acc v r) = some r
          rw [pyDictLookup_insert, if_pos hk]
        | none =>
          rw [halo] at hpred
          exact absurd hpred (by simp)
      · rw [if_neg hpred]
        cases halo : alookup f r with
        | some v =>
          rw [halo] at hpred
          have hk : ¬ pyKeyOf v = pyKeyOf k := by
            simpa using hpred
          show pyDictLookup k (pyDictInsert acc v r) = pyDictLookup k acc
          rw [pyDictLookup_insert, if_neg hk]
        | none => rfl

theorem buildIdMap_lookup (f : Str) (k : Value) (recs : List Row) :
    pyDictLookup k (buildIdMap f recs) = lastMatching f k recs := by
  unfold buildIdMap
  rw [buildIdMap_go f k recs []]
  cases lastMatching f k recs <;> rfl

/-- C10: when re-keying by an id-field, each key of the output map is bound to
    the record that appears latest in the input with that id-field value (the
    dict assignment overwrites earlier bindings); concretely, two records with
    id `"x"` collapse to the later one. -/
theorem c10_last_wins :
    (∀ (f : Str) (recs : List Row) (k : Value),
      pyDictLookup k (buildIdMap f recs) = lastMatching f k recs) ∧
    rekey_for_save (some "id".toList)
      [[("id".toList, .str "x".toList), ("v".toList, .int 1)],
       [("id".toList, .str "x".toList), ("v".toList, .int 2)]] =
    .keymap [(.str "x".toList,
      [("id".toList, .str "x".toList), ("v".toList, .int 2)])] :=
  ⟨fun f recs k => buildIdMap_lookup f k recs, by decide⟩

/-- C7: re-keying maps each record's id-field value to the record — concretely
    `[{"id":"a","v":1},{"id":"b","v":2}]` becomes the two-entry mapping — drops
    records lacking the field, and leaves the sequence unchanged when no record
    has the field. -/
theorem c7_rekey :
    rekey_for_save (some "id".toList)
      [[("id".toList, .str "a".toList), ("v".toList, .int 1)],
       [("id".toList, .str "b".toList), ("v".toList, .int 2)]] =
    .keymap
      [(.str "a".toList, [("id".toList, .str "a".toList), ("v".toList, .int 1)]),
       (.str "b".toList, [("id".toList, .str "b".toList), ("v".toList, .int 2)])] ∧
    rekey_for_save (some "id".toList)
      [[("id".toList, .str "a".toList), ("v".toList, .int 1)],
       [("v".toList, .int 9)]] =
    .keymap
      [(.str "a".toList, [("id".toList, .str "a".toList), ("v".toList, .int 1)])] ∧
    (∀ (f : Str) (recs : List Row), (∀ r ∈ recs, alookup f r = none) →
      rekey_for_save (some f) recs = .seq recs) := by
  refine ⟨by decide, by decide, ?_⟩
  intro f recs h
  have hb : buildIdMap f recs = [] := by
    have hgo : ∀ (l : List Row) (acc : List (Value × Row)),
        (∀ r ∈ l, alookup f r = none) →
        l.foldl (fun acc item =>
          match alookup f item with
          | some v => pyDictInsert acc v item
          | none => acc) acc = acc := by
      intro l
      induction l with
      | nil => intro acc _; rfl
      | cons r rest ih =>
        intro acc hall
        rw [List.foldl_cons]
        have hr : alookup f r = none := hall r (by simp)
        rw [hr]
        exact ih acc (fun x hx => hall x (List.mem_cons_of_mem r hx))
    exact hgo recs [] h
  simp only [rekey_for_save]
  split_ifs with h1
  · rfl
  · rfl

/-- C7 witness: the third conjunct applied to a record set where no record has
    the id-field. -/
theorem c7_rekey_witness :
    (∀ r ∈ [[("v".toList, Value.int 9)]], alookup "id".toList r = none) ∧
    rekey_for_save (some "id".toList) [[("v".toList, Value.int 9)]] =
      .seq [[("v".toList, Value.int 9)]] :=
  ⟨by decide, c7_rekey.2.2 "id".toList [[("v".toList, Value.int 9)]] (by decide)⟩

/-- C1 counterexample: for the raw column values `["1","2.5","3"]` the claim
    fails on the code — the detection pass maps `"1"` to `Bool(true)` (the
    boolean rule precedes the numeric rule), so the column tallies one bool,
    one float and one int; the promotion premise "all non-null values numeric"
    is false, the inferrer returns Int (not Float), and the final output keeps
    `Bool(true)` and `Int 3` — not every value is a Float. -/
theorem c1_promotion_counterexample :
    convert_data_types
      [[("a".toList, .str "1".toList)], [("a".toList, .str "2.5".toList)],
       [("a".toList, .str "3".toList)]] [] [] =
    [[("a".toList, .bool true)], [("a".toList, .float (mkRat 5 2))],
     [("a".toList, .int 3)]] ∧
    infer_column_types
      [[("a".toList, .bool true)], [("a".toList, .float (mkRat 5 2))],
       [("a".toList, .int 3)]] = [("a".toList, .int)] ∧
    TName.int ≠ TName.float := by
  refine ⟨by decide, by decide, by decide⟩

/-- C1 amended: for raw column values that all detect as numeric, e.g.
    `["10","2.5","3"]` (`"10"` is not a boolean literal), the column tallies
    two Ints and one Float, the promotion rule fires, the inferrer assigns
    Float to the whole column, and every value in the final output is a
    Float. -/
theorem c1_promotion_amended :
    convert_data_types
      [[("a".toList, .str "10".toList)], [("a".toList, .str "2.5".toList)],
       [("a".toList, .str "3".toList)]] [] [] =
    [[("a".toList, .float (mkRat 10 1))], [("a".toList, .float (mkRat 5 2))],
     [("a".toList, .float (mkRat 3 1))]] ∧
    infer_column_types
      [[("a".toList, .int 10)], [("a".toList, .float (mkRat 5 2))],
       [("a".toList, .int 3)]] = [("a".toList, .float)] := by
  refine ⟨by decide, by decide⟩

/-- C3: the load_csv skip loop does consume exactly `n` non-comment rows
    (comments never count), but the code then diverges from the claim: the
    fallback path re-skips from the file start and `fallback_csv_parse`
    additionally drops `skip_first_row` more lines, so for the document
    `["# c","r0","r1","r2"]` with skip 1 the primary parser starts at `"r1"`
    while the fallback parser starts at `"r2"` — not the same post-skip
    input. -/
theorem c3_skip_divergence :
    skipRows 1 ["# c\n".toList, "r0\n".toList, "r1\n".toList, "r2\n".toList] =
      ["r1\n".toList, "r2\n".toList] ∧
    fallbackStartLines ["# c\n".toList, "r0\n".toList, "r1\n".toList, "r2\n".toList] 1 =
      ["r2\n".toList] ∧
    fallbackStartLines ["# c\n".toList, "r0\n".toList, "r1\n".toList, "r2\n".toList] 1 ≠
      skipRows 1 ["# c\n".toList, "r0\n".toList, "r1\n".toList, "r2\n".toList] := by
  refine ⟨by decide, by decide, by decide⟩

/-- C6 counterexample: with the primary parser failing on the document
    `h1,h2 / 1,2 / "oops,3 / 4,5` (a row with an unbalanced quote), the
    pipeline does emit a document, but it does NOT contain the remaining
    well-formed rows: the fallback's continuation heuristic treats every line
    not starting with the quote character as a continuation, so `1,2` is
    dropped (no current row yet) and `4,5` is glued onto the malformed row.
    The single emitted record differs from both well-formed rows. -/
theorem c6_fallback_counterexample :
    load_csv_result (.error ()) ["h1,h2\n".toList, "1,2\n".toList, "\"oops,3\n".toList,
      "4,5\n".toList] ',' '"' none false true 0 [] =
    .records [[("h1".toList, .str "oops 4,5".toList), ("h2".toList, .int 3)]] ∧
    ([("h1".toList, Value.int 1), ("h2".toList, Value.int 2)] : Row) ∉
      [[("h1".toList, Value.str "oops 4,5".toList), ("h2".toList, Value.int 3)]] ∧
    ([("h1".toList, Value.int 4), ("h2".toList, Value.int 5)] : Row) ∉
      [[("h1".toList, Value.str "oops 4,5".toList), ("h2".toList, Value.int 3)]] := by
  refine ⟨by decide, by decide, by decide⟩

/-- C6 amended: a failure of the strict parsing stage is never surfaced as a
    hard failure — the except handler always returns the fallback parser's
    result on the rewound, re-skipped input, and a document is still emitted —
    but the fallback's continuation heuristic may merge or drop well-formed
    rows rather than reproduce them as separate records. -/
theorem c6_fallback_amended :
    (∀ (e : Unit) (doc : List Str) (delim quote : Char) (custom : Option (List Str))
      (missing detect : Bool) (skip : ℕ) (tf : List (Str × TransformSpec)),
      load_csv_result (.error e) doc delim quote custom missing detect skip tf =
        fallback_csv_parse (skipRows skip doc) delim quote custom missing detect skip tf) ∧
    load_csv_result (.error ()) ["h1,h2\n".toList, "1,2\n".toList, "\"oops,3\n".toList,
      "4,5\n".toList] ',' '"' none false true 0 [] =
    .records [[("h1".toList, .str "oops 4,5".toList), ("h2".toList, .int 3)]] :=
  ⟨fun _ _ _ _ _ _ _ _ _ => rfl, by decide⟩

/-- Lookup commutes with a key-preserving value map on a row. -/
theorem alookup_map (k : Str) (r : Row) (g : Str → Value → Value) :
    alookup k (r.map (fun p => (p.1, g p.1 p.2))) = (alookup k r).map (g k) := by
  induction r with
  | nil => rfl
  | cons p rest ih =>
    obtain ⟨k0, v⟩ := p
    simp only [List.map_cons, alookup]
    by_cases h : k0 = k
    · subst h
      simp
    · simp [h, ih]

theorem alookup_mem {k : Str} {r : Row} {v : Value} (h : alookup k r = some v) :
    (k, v) ∈ r := by
  induction r with
  | nil => exact absurd h (by simp [alookup])
  | cons p rest ih =>
    obtain ⟨k0, w⟩ := p
    simp only [alookup] at h
    by_cases hk : k0 = k
    · rw [if_pos hk] at h
      subst hk
      cases h
      exact List.mem_cons_self _ _
    · rw [if_neg hk] at h
      exact List.mem_cons_of_mem _ (ih h)

theorem coerce_null (t : TName) : coerce t .null = .null := by
  cases t <;> rfl

theorem coerce_idem (t : TName) (v : Value) : coerce t (coerce t v) = coerce t v := by
  cases t with
  | int =>
    cases v with
    | null => rfl
    | bool b => rfl
    | int n => rfl
    | float q =>
      by_cases hq : q.den = 1 <;> simp [coerce, hq]
    | str s =>
      cases hps : pyFloatOfStr s with
      | none => simp [coerce, hps]
      | some q => by_cases hq : q.den = 1 <;> simp [coerce, hps, hq]
  | float =>
    cases v with
    | null => rfl
    | bool b => rfl
    | int n => rfl
    | float q => rfl
    | str s =>
      cases hps : pyFloatOfStr s with
      | none => simp [coerce, hps]
      | some q => simp [coerce, hps]
  | bool =>
    cases v with
    | null => rfl
    | bool b => rfl
    | int n => rfl
    | float q => rfl
    | str s =>
      by_cases h1 : pyLower s ∈ trueLits
      · simp [coerce, h1]
      · by_cases h2 : pyLower s ∈ falseLits <;> simp [coerce, h1, h2]
  | string => rfl

theorem coerce_not_str (t : TName) (v : Value) (hv : isStrV v = false) :
    isStrV (coerce t v) = false := by
  cases t with
  | int =>
    cases v with
    | float q => by_cases hq : q.den = 1 <;> simp [coerce, hq, isStrV]
    | str s => simp [isStrV] at hv
    | null => exact hv
    | bool b => exact hv
    | int n => exact hv
  | float =>
    cases v with
    | str s => simp [isStrV] at hv
    | null => exact hv
    | bool b => simp [coerce, isStrV]
    | int n => simp [coerce, isStrV]
    | float q => exact hv
  | bool =>
    cases v with
    | str s => simp [isStrV] at hv
    | null => exact hv
    | bool b => exact hv
    | int n => exact hv
    | float q => exact hv
  | string => exact hv

theorem convStep_empty (T : List (Str × TName)) (k : Str) (v : Value) :
    convStep [] T k v = match alookup k T with
      | some t => coerce t v
      | none => v := by
  by_cases hv : v = .null
  · subst hv
    have h0 : convStep [] T k .null = .null := rfl
    rw [h0]
    cases alookup k T with
    | none => rfl
    | some t => exact (coerce_null t).symm
  · simp only [convStep, if_neg hv]
    cases alookup k T with
    | none => rfl
    | some t => rfl

theorem detectEntry_nostr (tf : List (Str × TransformSpec)) (p : Str × Value)
    (hp : isStrV p.2 = false) : detectEntry tf p = p := by
  obtain ⟨k, v⟩ := p
  cases v with
  | str s => simp [isStrV] at hp
  | null => rfl
  | bool b => rfl
  | int n => rfl
  | float q => rfl

theorem noStrValues_forall {rows : List Row} (h : NoStrValues rows = true) :
    ∀ r ∈ rows, ∀ p ∈ r, isStrV p.2 = false := by
  intro r hr p hp
  simp only [NoStrValues, List.all_eq_true] at h
  simpa using h r hr p hp

theorem countP_congr_mem {α : Type} (l : List α) (p q : α → Bool)
    (h : ∀ a ∈ l, p a = q a) : l.countP p = l.countP q := by
  induction l with
  | nil => rfl
  | cons a rest ih =>
    rw [List.countP_cons, List.countP_cons, h a (List.mem_cons_self a rest),
      ih (fun b hb => h b (List.mem_cons_of_mem a hb))]

theorem countP_or_disjoint {α : Type} (l : List α) (p q : α → Bool)
    (h : ∀ a ∈ l, ¬(p a = true ∧ q a = true)) :
    l.countP (fun a => p a || q a) = l.countP p + l.countP q := by
  induction l with
  | nil => rfl
  | cons a rest ih =>
    rw [List.countP_cons, List.countP_cons, List.countP_cons,
      ih (fun b hb => h b (List.mem_cons_of_mem a hb))]
    by_cases hp : p a = true
    · have hq : ¬ q a = true := fun hq => h a (List.mem_cons_self a rest) ⟨hp, hq⟩
      simp only [hp, Bool.true_or, if_pos]
      simp [hq]
      omega
    · by_cases hq : q a = true
      · simp only [Bool.or_eq_true]
        rw [if_pos (Or.inr hq), if_neg hp, if_pos hq]
        omega
      · simp only [Bool.or_eq_true]
        rw [if_neg (by tauto), if_neg hp, if_neg hq]
        omega

theorem alookup_keymap (k : Str) (keys : List Str) (f : Str → TName) :
    alookup k (keys.map (fun k2 => (k2, f k2))) =
      if k ∈ keys then some (f k) else none := by
  induction keys with
  | nil => simp [alookup]
  | cons k0 rest ih =>
    simp only [List.map_cons, alookup]
    by_cases h : k0 = k
    · subst h
      simp
    · rw [if_neg h, ih]
      have hne : ¬ k = k0 := fun hh => h hh.symm
      by_cases hk : k ∈ rest
      · simp [List.mem_cons, hk]
      · simp [List.mem_cons, hk, hne]

theorem inferOfCounts_sum_pos {cI cF cB cS : ℕ}
    (h : inferOfCounts cI cF cB cS ≠ .string) : 0 < cI + cF + cB + cS := by
  by_contra hc
  have h0 : cI + cF + cB + cS = 0 := by omega
  simp [inferOfCounts, h0] at h

theorem inferOfCounts_int_facts {cI cF cB : ℕ} (h : inferOfCounts cI cF cB 0 = .int) :
    cF ≤ cI ∧ cB ≤ cI ∧ (0 < cB ∨ cF = 0) ∧ 0 < cI + cF + cB := by
  have hpos : 0 < cI + cF + cB := by
    have := @inferOfCounts_sum_pos cI cF cB 0
      (by rw [h]; exact fun hh => TName.noConfusion hh)
    omega
  simp only [inferOfCounts] at h
  split_ifs at h
  all_goals simp_all
  all_goals omega

theorem inferOfCounts_int_step {cI cF cB X cF2 : ℕ} (hX : X + cF2 = cF)
    (h : inferOfCounts cI cF cB 0 = .int) : inferOfCounts (cI + X) cF2 cB 0 = .int := by
  obtain ⟨h1, h2, h3, h4⟩ := inferOfCounts_int_facts h
  simp only [inferOfCounts]
  rw [if_neg (show ¬(cI + X + cF2 + cB + 0 = 0) by omega)]
  rw [if_pos (show cF2 ≤ cI + X ∧ cB ≤ cI + X ∧ 0 ≤ cI + X by omega)]
  rw [if_neg ?hpro]
  case hpro =>
    rintro ⟨-, h5, h6⟩
    omega

theorem inferOfCounts_float_of_pos {S : ℕ} (hS : 0 < S) :
    inferOfCounts 0 S 0 0 = .float := by
  simp only [inferOfCounts]
  rw [if_neg (show ¬((0:ℕ) + S + 0 + 0 = 0) by omega)]
  rw [if_neg (show ¬(S ≤ 0 ∧ (0:ℕ) ≤ 0 ∧ (0:ℕ) ≤ 0) by omega)]
  rw [if_pos (show (0:ℕ) ≤ S ∧ (0:ℕ) ≤ S by omega)]
  rw [if_pos ⟨Or.inr rfl, by omega, hS⟩]

theorem alookup_coerceRowT (T : List (Str × TName)) (k : Str) (r : Row) :
    alookup k (coerceRowT T r) = (alookup k r).map (fun v =>
      match alookup k T with
      | some t => coerce t v
      | none => v) := by
  induction r with
  | nil => rfl
  | cons p rest ih =>
    obtain ⟨k0, v⟩ := p
    simp only [coerceRowT, List.map_cons, alookup] at ih ⊢
    by_cases h : k0 = k
    · subst h
      simp
    · simp only [if_neg h]
      exact ih

theorem coerceRowT_keys (T : List (Str × TName)) (r : Row) :
    (coerceRowT T r).map Prod.fst = r.map Prod.fst := by
  unfold coerceRowT
  rw [List.map_map]
  rfl

theorem tallyAt_coerceRowT (rows : List Row) (T : List (Str × TName)) (k : Str) (t : TName)
    (hk : alookup k T = some t) (tg : Tag) :
    tallyAt (rows.map (coerceRowT T)) k tg =
      rows.countP (fun r => match alookup k r with
        | some v => tagOf (coerce t v) == tg
        | none => false) := by
  unfold tallyAt
  rw [List.countP_map]
  apply countP_congr_mem
  intro r _
  simp only [Function.comp_apply]
  rw [alookup_coerceRowT, hk]
  cases alookup k r with
  | none => rfl
  | some v => rfl

theorem tallyAt_str_zero (rows : List Row) (k : Str)
    (h : ∀ r ∈ rows, ∀ p ∈ r, isStrV p.2 = false) : tallyAt rows k .str = 0 := by
  unfold tallyAt
  rw [List.countP_eq_zero]
  intro r hr
  cases halo : alookup k r with
  | none => simp
  | some v =>
    have hv := h r hr (k, v) (alookup_mem halo)
    cases v with
    | str s => simp [isStrV] at hv
    | null => simp [tagOf, beq_iff_eq]
    | bool b => simp [tagOf, beq_iff_eq]
    | int n => simp [tagOf, beq_iff_eq]
    | float q => simp [tagOf, beq_iff_eq]

theorem coerce_bool_nonstr (v : Value) (hv : isStrV v = false) : coerce .bool v = v := by
  cases v with
  | str s => simp [isStrV] at hv
  | null => rfl
  | bool b => rfl
  | int n => rfl
  | float q => rfl

theorem tag_coerce_float_int (v : Value) (hv : isStrV v = false) :
    (tagOf (coerce .float v) == Tag.int) = false := by
  cases v with
  | str s => simp [isStrV] at hv
  | null => rfl
  | bool b => rfl
  | int n => rfl
  | float q => rfl

theorem tag_coerce_float_bool (v : Value) (hv : isStrV v = false) :
    (tagOf (coerce .float v) == Tag.bool) = false := by
  cases v with
  | str s => simp [isStrV] at hv
  | null => rfl
  | bool b => rfl
  | int n => rfl
  | float q => rfl

theorem tag_coerce_float_str (v : Value) (hv : isStrV v = false) :
    (tagOf (coerce .float v) == Tag.str) = false := by
  cases v with
  | str s => simp [isStrV] at hv
  | null => rfl
  | bool b => rfl
  | int n => rfl
  | float q => rfl

theorem tag_coerce_float_float (v : Value) (hv : isStrV v = false) :
    (tagOf (coerce .float v) == Tag.float) =
      ((tagOf v == Tag.int) || ((tagOf v == Tag.float) || (tagOf v == Tag.bool))) := by
  cases v with
  | str s => simp [isStrV] at hv
  | null => rfl
  | bool b => rfl
  | int n => rfl
  | float q => rfl

theorem tag_coerce_int_int (v : Value) (hv : isStrV v = false) :
    (tagOf (coerce .int v) == Tag.int) = ((tagOf v == Tag.int) || isIntegralFloat v) := by
  cases v with
  | str s => simp [isStrV] at hv
  | null => rfl
  | bool b => rfl
  | int n => rfl
  | float q => by_cases hq : q.den = 1 <;> simp [coerce, tagOf, hq, isIntegralFloat]

theorem tag_coerce_int_float (v : Value) (hv : isStrV v = false) :
    (tagOf v == Tag.float) = (isIntegralFloat v || (tagOf (coerce .int v) == Tag.float)) := by
  cases v with
  | str s => simp [isStrV] at hv
  | null => rfl
  | bool b => rfl
  | int n => rfl
  | float q => by_cases hq : q.den = 1 <;> simp [coerce, tagOf, hq, isIntegralFloat]

theorem tag_coerce_int_bool (v : Value) (hv : isStrV v = false) :
    (tagOf (coerce .int v) == Tag.bool) = (tagOf v == Tag.bool) := by
  cases v with
  | str s => simp [isStrV] at hv
  | null => rfl
  | bool b => rfl
  | int n => rfl
  | float q => by_cases hq : q.den = 1 <;> simp [coerce, tagOf, hq]

theorem tag_coerce_int_str (v : Value) (hv : isStrV v = false) :
    (tagOf (coerce .int v) == Tag.str) = false := by
  cases v with
  | str s => simp [isStrV] at hv
  | null => rfl
  | bool b => rfl
  | int n => rfl
  | float q => by_cases hq : q.den = 1 <;> simp [coerce, tagOf, hq]

/-- The heart of the idempotence argument: on a string-free record set, one
    coercion pass does not change any column's inferred type.
    * string column: coercion is the identity;
    * bool column: bool coercion only alters strings, absent here;
    * float column: every non-null value in the column becomes a float, and the
      all-float column still infers float (via the max rule or promotion);
    * int column: integral floats migrate to the int count, which only grows;
      promotion stays blocked (a bool was present, or there were no floats at
      all). -/
theorem inferFor_coerceRowT_eq (rows : List Row) (T : List (Str × TName)) (k : Str)
    (hk : alookup k T = some (inferFor rows k))
    (hns : ∀ r ∈ rows, ∀ p ∈ r, isStrV p.2 = false) :
    inferFor (rows.map (coerceRowT T)) k = inferFor rows k := by
  have hcS : tallyAt rows k .str = 0 := tallyAt_str_zero rows k hns
  have hmem : ∀ r ∈ rows, ∀ v : Value, alookup k r = some v → isStrV v = false := by
    intro r hr v halo
    exact hns r hr (k, v) (alookup_mem halo)
  cases ht : inferFor rows k with
  | string =>
    rw [ht] at hk
    unfold inferFor
    rw [tallyAt_coerceRowT rows T k .string hk Tag.int,
        tallyAt_coerceRowT rows T k .string hk Tag.float,
        tallyAt_coerceRowT rows T k .string hk Tag.bool,
        tallyAt_coerceRowT rows T k .string hk Tag.str]
    exact ht
  | bool =>
    rw [ht] at hk
    have e : ∀ tg : Tag, rows.countP (fun r => match alookup k r with
        | some v => tagOf (coerce .bool v) == tg
        | none => false) = tallyAt rows k tg := by
      intro tg
      unfold tallyAt
      apply countP_congr_mem
      intro r hr
      cases halo : alookup k r with
      | none => rfl
      | some v =>
        exact congrArg (fun w => tagOf w == tg) (coerce_bool_nonstr v (hmem r hr v halo))
    unfold inferFor
    rw [tallyAt_coerceRowT rows T k .bool hk Tag.int,
        tallyAt_coerceRowT rows T k .bool hk Tag.float,
        tallyAt_coerceRowT rows T k .bool hk Tag.bool,
        tallyAt_coerceRowT rows T k .bool hk Tag.str,
        e Tag.int, e Tag.float, e Tag.bool, e Tag.str]
    exact ht
  | float =>
    rw [ht] at hk
    have ht2 : inferOfCounts (tallyAt rows k .int) (tallyAt rows k .float)
        (tallyAt rows k .bool) (tallyAt rows k .str) = .float := ht
    have hne : inferOfCounts (tallyAt rows k .int) (tallyAt rows k .float)
        (tallyAt rows k .bool) (tallyAt rows k .str) ≠ .string := by
      rw [ht2]
      exact fun hh => TName.noConfusion hh
    have hpos := inferOfCounts_sum_pos hne
    rw [hcS] at hpos
    have eI : rows.countP (fun r => match alookup k r with
        | some v => tagOf (coerce .float v) == Tag.int
        | none => false) = 0 := by
      rw [List.countP_eq_zero]
      intro r hr
      cases halo : alookup k r with
      | none => simp
      | some v => simp [tag_coerce_float_int v (hmem r hr v halo)]
    have eB : rows.countP (fun r => match alookup k r with
        | some v => tagOf (coerce .float v) == Tag.bool
        | none => false) = 0 := by
      rw [List.countP_eq_zero]
      intro r hr
      cases halo : alookup k r with
      | none => simp
      | some v => simp [tag_coerce_float_bool v (hmem r hr v halo)]
    have eS : rows.countP (fun r => match alookup k r with
        | some v => tagOf (coerce .float v) == Tag.str
        | none => false) = 0 := by
      rw [List.countP_eq_zero]
      intro r hr
      cases halo : alookup k r with
      | none => simp
      | some v => simp [tag_coerce_float_str v (hmem r hr v halo)]
    have e1 : rows.countP (fun r => match alookup k r with
        | some v => tagOf (coerce .float v) == Tag.float
        | none => false) = rows.countP (fun r =>
          (match alookup k r with
            | some v => tagOf v == Tag.int
            | none => false) ||
          ((match alookup k r with
            | some v => tagOf v == Tag.float
            | none => false) ||
           (match alookup k r with
            | some v => tagOf v == Tag.bool
            | none => false))) := by
      apply countP_congr_mem
      intro r hr
      cases halo : alookup k r with
      | none => rfl
      | some v => exact tag_coerce_float_float v (hmem r hr v halo)
    have hd2 : ∀ r ∈ rows, ¬((match alookup k r with
        | some v => tagOf v == Tag.float
        | none => false) = true ∧ (match alookup k r with
        | some v => tagOf v == Tag.bool
        | none => false) = true) := by
      intro r hr hcon
      obtain ⟨ha, hb⟩ := hcon
      cases halo : alookup k r with
      | none => rw [halo] at ha; simp at ha
      | some v =>
        rw [halo] at ha hb
        cases v <;> simp [tagOf] at ha hb
    have hd1 : ∀ r ∈ rows, ¬((match alookup k r with
        | some v => tagOf v == Tag.int
        | none => false) = true ∧ ((match alookup k r with
        | some v => tagOf v == Tag.float
        | none => false) || (match alookup k r with
        | some v => tagOf v == Tag.bool
        | none => false)) = true) := by
      intro r hr hcon
      obtain ⟨ha, hb⟩ := hcon
      cases halo : alookup k r with
      | none => rw [halo] at ha; simp at ha
      | some v =>
        rw [halo] at ha hb
        cases v <;> simp [tagOf] at ha hb
    have eF : rows.countP (fun r => match alookup k r with
        | some v => tagOf (coerce .float v) == Tag.float
        | none => false) =
        tallyAt rows k .int + (tallyAt rows k .float + tallyAt rows k .bool) := by
      rw [e1, countP_or_disjoint _ _ _ hd1, countP_or_disjoint _ _ _ hd2]
      rfl
    unfold inferFor
    rw [tallyAt_coerceRowT rows T k .float hk Tag.int,
        tallyAt_coerceRowT rows T k .float hk Tag.float,
        tallyAt_coerceRowT rows T k .float hk Tag.bool,
        tallyAt_coerceRowT rows T k .float hk Tag.str,
        eI, eB, eS, eF]
    exact inferOfCounts_float_of_pos (by omega)
  | int =>
    rw [ht] at hk
    have ht2 : inferOfCounts (tallyAt rows k .int) (tallyAt rows k .float)
        (tallyAt rows k .bool) (tallyAt rows k .str) = .int := ht
    rw [hcS] at ht2
    have eS : rows.countP (fun r => match alookup k r with
        | some v => tagOf (coerce .int v) == Tag.str
        | none => false) = 0 := by
      rw [List.countP_eq_zero]
      intro r hr
      cases halo : alookup k r with
      | none => simp
      | some v => simp [tag_coerce_int_str v (hmem r hr v halo)]
    have eB : rows.countP (fun r => match alookup k r with
        | some v => tagOf (coerce .int v) == Tag.bool
        | none => false) = tallyAt rows k .bool := by
      unfold tallyAt
      apply countP_congr_mem
      intro r hr
      cases halo : alookup k r with
      | none => rfl
      | some v => exact tag_coerce_int_bool v (hmem r hr v halo)
    have e1 : rows.countP (fun r => match alookup k r with
        | some v => tagOf (coerce .int v) == Tag.int
        | none => false) = rows.countP (fun r =>
          (match alookup k r with
            | some v => tagOf v == Tag.int
            | none => false) ||
          (match alookup k r with
            | some v => isIntegralFloat v
            | none => false)) := by
      apply countP_congr_mem
      intro r hr
      cases halo : alookup k r with
      | none => rfl
      | some v => exact tag_coerce_int_int v (hmem r hr v halo)
    have hdX : ∀ r ∈ rows, ¬((match alookup k r with
        | some v => tagOf v == Tag.int
        | none => false) = true ∧ (match alookup k r with
        | some v => isIntegralFloat v
        | none => false) = true) := by
      intro r hr hcon
      obtain ⟨ha, hb⟩ := hcon
      cases halo : alookup k r with
      | none => rw [halo] at ha; simp at ha
      | some v =>
        rw [halo] at ha hb
        cases v <;> simp [tagOf, isIntegralFloat] at ha hb
    have eI : rows.countP (fun r => match alookup k r with
        | some v => tagOf (coerce .int v) == Tag.int
        | none => false) =
        tallyAt rows k .int + rows.countP (fun r => match alookup k r with
          | some v => isIntegralFloat v
          | none => false) := by
      rw [e1, countP_or_disjoint _ _ _ hdX]
      rfl
    have e2 : tallyAt rows k .float = rows.countP (fun r =>
        (match alookup k r with
          | some v => isIntegralFloat v
          | none => false) ||
        (match alookup k r with
          | some v => tagOf (coerce .int v) == Tag.float
          | none => false)) := by
      unfold tallyAt
      apply countP_congr_mem
      intro r hr
      cases halo : alookup k r with
      | none => rfl
      | some v => exact tag_coerce_int_float v (hmem r hr v halo)
    have hdF : ∀ r ∈ rows, ¬((match alookup k r with
        | some v => isIntegralFloat v
        | none => false) = true ∧ (match alookup k r with
        | some v => tagOf (coerce .int v) == Tag.float
        | none => false) = true) := by
      intro r hr hcon
      obtain ⟨ha, hb⟩ := hcon
      cases halo : alookup k r with
      | none => rw [halo] at ha; simp at ha
      | some v =>
        rw [halo] at ha hb
        cases v with
        | float q =>
          by_cases hq : q.den = 1 <;> simp [isIntegralFloat, coerce, tagOf, hq] at ha hb
        | null => simp [isIntegralFloat] at ha
        | bool b => simp [isIntegralFloat] at ha
        | int n => simp [isIntegralFloat] at ha
        | str s => simp [isIntegralFloat] at ha
    have eF : tallyAt rows k .float =
        rows.countP (fun r => match alookup k r with
          | some v => isIntegralFloat v
          | none => false) +
        rows.countP (fun r => match alookup k r with
          | some v => tagOf (coerce .int v) == Tag.float
          | none => false) := by
      rw [e2, countP_or_disjoint _ _ _ hdF]
    unfold inferFor
    rw [tallyAt_coerceRowT rows T k .int hk Tag.int,
        tallyAt_coerceRowT rows T k .int hk Tag.float,
        tallyAt_coerceRowT rows T k .int hk Tag.bool,
        tallyAt_coerceRowT rows T k .int hk Tag.str,
        eI, eB, eS]
    exact inferOfCounts_int_step eF.symm ht2

theorem infer_column_types_coerceRowT (rows : List Row)
    (hns : ∀ r ∈ rows, ∀ p ∈ r, isStrV p.2 = false) :
    infer_column_types (rows.map (coerceRowT (infer_column_types rows))) =
      infer_column_types rows := by
  cases rows with
  | nil => rfl
  | cons r0 rest =>
    rw [List.map_cons]
    show ((coerceRowT (infer_column_types (r0 :: rest)) r0).map Prod.fst).map
        (fun k => (k, inferFor (coerceRowT (infer_column_types (r0 :: rest)) r0 ::
          rest.map (coerceRowT (infer_column_types (r0 :: rest)))) k)) =
      (r0.map Prod.fst).map (fun k => (k, inferFor (r0 :: rest) k))
    rw [coerceRowT_keys, ← List.map_cons]
    apply List.map_congr_left
    intro k hkmem
    have hk : alookup k (infer_column_types (r0 :: rest)) =
        some (inferFor (r0 :: rest) k) := by
      show alookup k ((r0.map Prod.fst).map (fun k2 => (k2, inferFor (r0 :: rest) k2))) = _
      rw [alookup_keymap, if_pos hkmem]
    rw [inferFor_coerceRowT_eq (r0 :: rest) (infer_column_types (r0 :: rest)) k hk hns]

theorem noStr_coerceRowT (rows : List Row) (T : List (Str × TName))
    (hns : ∀ r ∈ rows, ∀ p ∈ r, isStrV p.2 = false) :
    ∀ r ∈ rows.map (coerceRowT T), ∀ p ∈ r, isStrV p.2 = false := by
  intro r hr p hp
  rw [List.mem_map] at hr
  obtain ⟨r0, hr0, rfl⟩ := hr
  unfold coerceRowT at hp
  rw [List.mem_map] at hp
  obtain ⟨p0, hp0, rfl⟩ := hp
  have hv := hns r0 hr0 p0 hp0
  cases halo : alookup p0.1 T with
  | none => exact hv
  | some t => exact coerce_not_str t p0.2 hv

theorem convert_nostr_repr (rows : List Row) (hne : rows ≠ [])
    (hns : ∀ r ∈ rows, ∀ p ∈ r, isStrV p.2 = false) :
    convert_data_types rows [] [] = rows.map (coerceRowT (infer_column_types rows)) := by
  have hdet1 : ∀ r ∈ rows, r.map (detectEntry []) = r := by
    intro r hr
    have hid : ∀ p ∈ r, detectEntry [] p = p :=
      fun p hp => detectEntry_nostr [] p (hns r hr p hp)
    calc r.map (detectEntry []) = r.map id := List.map_congr_left hid
      _ = r := List.map_id r
  have hdet : rows.map (fun r => r.map (detectEntry [])) = rows := by
    calc rows.map (fun r => r.map (detectEntry []))
        = rows.map id := List.map_congr_left (fun r hr => hdet1 r hr)
      _ = rows := List.map_id rows
  have h1 : convert_data_types rows [] [] =
      (rows.map (fun r => r.map (detectEntry []))).map (fun r => r.map (fun p =>
        (p.1, convStep []
          (infer_column_types (rows.map (fun r => r.map (detectEntry [])))) p.1 p.2))) := by
    unfold convert_data_types
    rw [if_neg hne]
    rfl
  rw [h1, hdet]
  apply List.map_congr_left
  intro r hr
  unfold coerceRowT
  apply List.map_congr_left
  intro p hp
  rw [convStep_empty]

/-- C5 amended: the type-conversion stage is idempotent on record sets that
    contain no string values at all: for such input the detection pass is the
    identity, one coercion pass preserves every column's inferred type
    (`inferFor_coerceRowT_eq`), and the per-value coercion is idempotent. -/
theorem c5_idempotence_amended (rows : List Row) (h : NoStrValues rows = true) :
    convert_data_types (convert_data_types rows [] []) [] [] =
      convert_data_types rows [] [] := by
  have hns := noStrValues_forall h
  cases rows with
  | nil => rfl
  | cons r0 rest =>
    have hne : (r0 :: rest : List Row) ≠ [] := by simp
    rw [convert_nostr_repr (r0 :: rest) hne hns]
    have hnsR := noStr_coerceRowT (r0 :: rest) (infer_column_types (r0 :: rest)) hns
    have hneR : ((r0 :: rest).map (coerceRowT (infer_column_types (r0 :: rest)))) ≠ [] := by
      simp
    rw [convert_nostr_repr _ hneR hnsR]
    rw [infer_column_types_coerceRowT (r0 :: rest) hns]
    rw [List.map_map]
    apply List.map_congr_left
    intro r hr
    simp only [Function.comp_apply]
    unfold coerceRowT
    rw [List.map_map]
    apply List.map_congr_left
    intro p hp
    simp only [Function.comp_apply]
    cases halo : alookup p.1 (infer_column_types (r0 :: rest)) with
    | none => rfl
    | some t =>
      simp only [halo]
      rw [coerce_idem]

/-- C5 counterexample: the claim as stated fails.  Starting from
    `[{"a": 4}, {"a": " 2.5 "}]`, the conversion stage detects nothing
    (`" 2.5 "` has padding, so the detect regex rejects it), infers Int for the
    column (int and string tie, int first), and the int coercion turns
    `" 2.5 "` into the float `2.5` (Python `float(" 2.5 ")` strips whitespace).
    The produced document `[{"a": 4}, {"a": 2.5}]` has no remaining string
    values, yet converting it again re-infers the column as Float (all values
    now numeric, promotion applies) and rewrites `4` into `4.0`. -/
theorem c5_idempotence_counterexample :
    NoStrValues (convert_data_types [[("a".toList, .int 4)],
      [("a".toList, .str " 2.5 ".toList)]] [] []) = true ∧
    convert_data_types (convert_data_types [[("a".toList, .int 4)],
      [("a".toList, .str " 2.5 ".toList)]] [] []) [] [] ≠
      convert_data_types [[("a".toList, .int 4)],
        [("a".toList, .str " 2.5 ".toList)]] [] [] := by
  refine ⟨by decide, by decide⟩

/-- C5 witness: the amended idempotence applied to a concrete string-free
    record set. -/
theorem c5_idempotence_witness :
    NoStrValues [[("a".toList, Value.int 1)], [("a".toList, Value.float (mkRat 5 2))]] = true ∧
    convert_data_types (convert_data_types [[("a".toList, Value.int 1)],
      [("a".toList, Value.float (mkRat 5 2))]] [] []) [] [] =
      convert_data_types [[("a".toList, Value.int 1)],
        [("a".toList, Value.float (mkRat 5 2))]] [] [] :=
  ⟨by decide, c5_idempotence_amended
    [[("a".toList, Value.int 1)], [("a".toList, Value.float (mkRat 5 2))]] (by decide)⟩
